import Mathlib

set_option maxHeartbeats 800000

/-!
Shallow embedding of `src/script.js`, the daily micro-expense tracker.

Modelling conventions:
* JavaScript numbers are idealized as exact rationals (`ℚ`); the non-finite
  values that `parseFloat` can produce (`NaN`, `±Infinity`) are modelled
  explicitly by the `JSNum` type at the form boundary.
* The browser clock reads (`Date.now()`, `getDateString(new Date())`,
  `new Date().toISOString()`) are injected parameters, as are the DOM form
  field values; dates and timestamps are the opaque strings the script
  compares and groups by.
* `localStorage` is modelled by threading the expense collection through the
  operations (`getExpenses`/`saveExpenses` become the identity on the threaded
  collection); the JSON structure they serialize is modelled separately for
  the round-trip property.
* JavaScript's stable `Array.prototype.sort` is modelled by `List.mergeSort`,
  a stable sort; `Object.entries` enumeration order for the non-numeric
  string keys used here (category labels, date strings) is key insertion
  order, modelled by an association list that keeps first-insertion order.
-/

/-- An expense record as constructed by `addExpense` in `script.js`
(fields `id`, `name`, `amount`, `category`, `date`, `timestamp`).
Both `id` (a `Date.now()` value) and `amount` are JS numbers, idealized
as rationals. -/
structure Expense where
  id : ℚ
  name : String
  amount : ℚ
  category : String
  date : String
  timestamp : String
  deriving DecidableEq

/-- Models `calculateTotal(expenses)`:
`expenses.reduce((sum, exp) => sum + exp.amount, 0)`. -/
def calculateTotal (expenses : List Expense) : ℚ :=
  expenses.foldl (fun sum exp => sum + exp.amount) 0

/-- Models `deleteExpense(id)`: `expenses.filter(exp => exp.id !== id)`,
with the threaded collection standing for the localStorage round trip. -/
def deleteExpense (expenses : List Expense) (id : ℚ) : List Expense :=
  expenses.filter (fun exp => exp.id != id)

/-- Models the daily-average computation shared by `renderMonthlySummary`
(line 142) and `renderInsights` (line 205):
`currentDay > 0 ? total / currentDay : 0`, where `currentDay` is
`new Date().getDate()`. -/
def dailyAverage (monthExpenses : List Expense) (dayOfMonth : ℕ) : ℚ :=
  if dayOfMonth > 0 then calculateTotal monthExpenses / dayOfMonth else 0

/-- Models one step of the JS object accumulation
`obj[key] = (obj[key] || 0) + v`, on an association list whose key order is
first-insertion order (the order `Object.entries` enumerates the non-numeric
string keys used by the script). -/
def upsert (acc : List (String × ℚ)) (key : String) (v : ℚ) : List (String × ℚ) :=
  match acc with
  | [] => [(key, v)]
  | (k, w) :: t => if k = key then (k, w + v) :: t else (k, w) :: upsert t key v

/-- Models the `categoryTotals` accumulation of `renderCategoryBreakdown` and
`renderInsights`: `monthExpenses.forEach(exp => ... categoryTotals[exp.category]
= (categoryTotals[exp.category] || 0) + exp.amount)`. -/
def categoryTotals (monthExpenses : List Expense) : List (String × ℚ) :=
  monthExpenses.foldl (fun acc exp => upsert acc exp.category exp.amount) []

/-- Models `Object.entries(categoryTotals).sort((a, b) => b[1] - a[1])`: a
stable sort, descending on the per-category total (`renderCategoryBreakdown`
line 172; `renderInsights` recomputes the same expression at line 216). -/
def categoryBreakdown (monthExpenses : List Expense) : List (String × ℚ) :=
  (categoryTotals monthExpenses).mergeSort (fun a b => decide (b.2 ≤ a.2))

/-- Models the `expensesByDate` accumulation of `renderInsights` (lines
221-224): per-date sums of `amount` over the month's expenses. -/
def expensesByDate (monthExpenses : List Expense) : List (String × ℚ) :=
  monthExpenses.foldl (fun acc exp => upsert acc exp.date exp.amount) []

/-- Message rendered by `renderInsights` when the month has no expenses. -/
def noDataInsight : String := "No insights yet. Start tracking expenses!"

/-- Insight pushed when today's total exceeds the positive daily average. -/
def aboveAverageInsight : String := "You spent more than your daily average today."

/-- Tail of the highest-category insight; `renderInsights` prepends the
category name: `categories[0][0] + ' expenses are your highest spending
category.'`. -/
def highestCategorySuffix : String := " expenses are your highest spending category."

/-- Insight pushed when at least three days exceed 1.5 times the average. -/
def multiDayInsight : String := "High spending detected on multiple days this month."

/-- Insight pushed when today's total exceeds the fixed threshold of 500. -/
def thresholdInsight : String := "Today\u0027s spending exceeds ₹500."

/-- Fallback insight pushed when no other insight was pushed. -/
def fallbackInsight : String := "Your spending is under control. Keep tracking!"

/-- Models `renderInsights` (lines 190-245) as the list of insight strings it
renders, in push order. `currentDay` is the injected `new Date().getDate()`.
The empty-month branch renders the no-data message and returns early; each
subsequent `if` appends at most one string; the final `if` substitutes the
fallback when nothing was pushed. -/
def deriveInsights (todayExpenses monthExpenses : List Expense) (currentDay : ℕ) :
    List String :=
  if monthExpenses.length = 0 then [noDataInsight] else
  let todayTotal := calculateTotal todayExpenses
  let avgDaily := dailyAverage monthExpenses currentDay
  let insights : List String := []
  let insights := if todayTotal > avgDaily ∧ avgDaily > 0 then
    insights ++ [aboveAverageInsight] else insights
  let insights := if (categoryBreakdown monthExpenses).length > 0 then
    insights ++ [(categoryBreakdown monthExpenses).headI.1 ++ highestCategorySuffix]
    else insights
  let insights := if ((expensesByDate monthExpenses).filter
      (fun p => decide (p.2 > avgDaily * 1.5))).length ≥ 3 then
    insights ++ [multiDayInsight] else insights
  let insights := if todayTotal > 500 then insights ++ [thresholdInsight] else insights
  if insights.length = 0 then [fallbackInsight] else insights

/-- Rule 2 of `renderInsights` in isolation: the (zero- or one-element) list
of strings contributed by the daily-average comparison. -/
def rule2 (todayTotal avgDaily : ℚ) : List String :=
  if todayTotal > avgDaily ∧ avgDaily > 0 then [aboveAverageInsight] else []

/-- Rule 3 of `renderInsights` in isolation: the highest-category insight,
contributed whenever the sorted category list is non-empty. -/
def rule3 (monthExpenses : List Expense) : List String :=
  if (categoryBreakdown monthExpenses).length > 0 then
    [(categoryBreakdown monthExpenses).headI.1 ++ highestCategorySuffix] else []

/-- Rule 4 of `renderInsights` in isolation: the multiple-high-spending-days
insight (at least three dates whose total exceeds `avgDaily * 1.5`). -/
def rule4 (monthExpenses : List Expense) (avgDaily : ℚ) : List String :=
  if ((expensesByDate monthExpenses).filter
      (fun p => decide (p.2 > avgDaily * 1.5))).length ≥ 3 then [multiDayInsight] else []

/-- Rule 5 of `renderInsights` in isolation: the absolute-threshold insight
(`todayTotal > 500`). -/
def rule5 (todayTotal : ℚ) : List String :=
  if todayTotal > 500 then [thresholdInsight] else []

/-- A JavaScript number as produced by `parseFloat`: `NaN`, `±Infinity`, or a
finite value (idealized as an exact rational). -/
inductive JSNum where
  | nan : JSNum
  | posInf : JSNum
  | negInf : JSNum
  | fin : ℚ → JSNum
  deriving DecidableEq

/-- Models the JS comparison `x <= 0` on a `parseFloat` result: false for
`NaN` and `+Infinity`, true for `-Infinity`, and the rational comparison
otherwise. -/
def jsLeZero : JSNum → Bool
  | JSNum.nan => false
  | JSNum.posInf => false
  | JSNum.negInf => true
  | JSNum.fin q => decide (q ≤ 0)

/-- Reads a stored JS number as a rational. `NaN` and `±Infinity` have no
rational value and are mapped to `0`; no theorem below inspects the stored
amount of a record created through a non-finite parse. -/
def jsToQ : JSNum → ℚ
  | JSNum.fin q => q
  | _ => 0

/-- Value of a list of decimal digit characters. -/
def digitsVal (ds : List Char) : ℕ :=
  ds.foldl (fun n c => 10 * n + (c.toNat - '0'.toNat)) 0

/-- Ten to the given power, as a natural number. -/
def pow10 (n : ℕ) : ℕ := 10 ^ n

/-- Applies an optional decimal exponent part to a parsed mantissa. -/
def applyExp (q : ℚ) (e : Option ℤ) : ℚ :=
  match e with
  | none => q
  | some e => if 0 ≤ e then q * (pow10 e.toNat : ℚ) else q / (pow10 (-e).toNat : ℚ)

/-- Parses an exponent part (`e`/`E`, optional sign, digits) at the head of
the input; `none` if no well-formed exponent part starts here (in which case
`parseFloat` ignores it, e.g. `parseFloat("1e") = 1`). -/
def parseExponent (s : List Char) : Option ℤ :=
  match s with
  | 'e' :: t | 'E' :: t =>
    match t with
    | '-' :: u => if u.takeWhile Char.isDigit = [] then none
        else some (-(digitsVal (u.takeWhile Char.isDigit) : ℤ))
    | '+' :: u => if u.takeWhile Char.isDigit = [] then none
        else some (digitsVal (u.takeWhile Char.isDigit) : ℤ)
    | u => if u.takeWhile Char.isDigit = [] then none
        else some (digitsVal (u.takeWhile Char.isDigit) : ℤ)
  | _ => none

/-- Parses an unsigned decimal literal (`digits [. digits] [exponent]`, or
`. digits [exponent]`) at the head of the input, ignoring trailing junk, as
ECMAScript `parseFloat` does; `none` when no digit is found. -/
def parseNumber (s : List Char) : Option ℚ :=
  let intPart := s.takeWhile Char.isDigit
  let rest := s.dropWhile Char.isDigit
  let fracPart := match rest with
    | '.' :: t => t.takeWhile Char.isDigit
    | _ => []
  let rest2 := match rest with
    | '.' :: t => t.dropWhile Char.isDigit
    | _ => rest
  if intPart = [] ∧ fracPart = [] then none
  else
    let mantissa : ℚ :=
      if fracPart = [] then (digitsVal intPart : ℚ)
      else (digitsVal intPart : ℚ) + (digitsVal fracPart : ℚ) / (pow10 fracPart.length : ℚ)
    some (applyExp mantissa (parseExponent rest2))

/-- Models ECMAScript `parseFloat` on the raw form field string: skip leading
whitespace, optional sign, then the longest `Infinity` or decimal-literal
value; `NaN` when nothing numeric starts the string. Exact rational
arithmetic stands in for the double rounding of real JS. -/
def parseFloat (s : String) : JSNum :=
  let t := s.data.dropWhile Char.isWhitespace
  let signed : Bool × List Char := match t with
    | '-' :: u => (true, u)
    | '+' :: u => (false, u)
    | u => (false, u)
  match signed with
  | (neg, 'I' :: 'n' :: 'f' :: 'i' :: 'n' :: 'i' :: 't' :: 'y' :: _) =>
    if neg then JSNum.negInf else JSNum.posInf
  | (neg, u) =>
    match parseNumber u with
    | none => JSNum.nan
    | some q => JSNum.fin (if neg then -q else q)

/-- Models `String.prototype.trim`: drop whitespace from both ends (written
structurally so it computes; Lean's whitespace set stands in for the JS
one). -/
def jsTrim (s : String) : String :=
  ⟨((s.data.dropWhile Char.isWhitespace).reverse.dropWhile Char.isWhitespace).reverse⟩

/-- Models `addExpense(name, amount, category)` (lines 65-78): build the
record with `id: Date.now()`, `name: name.trim()`, `amount:
parseFloat(amount)`, the current date string and ISO timestamp, append it,
persist, and return it. The clock reads are the injected `nowMs`, `dateStr`,
`tsStr`. -/
def addExpense (expenses : List Expense) (name amount category : String)
    (nowMs : ℚ) (dateStr tsStr : String) : List Expense × Expense :=
  let expense : Expense :=
    { id := nowMs, name := jsTrim name, amount := jsToQ (parseFloat amount),
      category := category, date := dateStr, timestamp := tsStr }
  (expenses ++ [expense], expense)

/-- Models the validation test of `handleFormSubmit` (line 263):
`!name || !amount || parseFloat(amount) <= 0`. A JS string is falsy exactly
when it is empty. -/
def submitRejected (name amount : String) : Bool :=
  name == "" || amount == "" || jsLeZero (parseFloat amount)

/-- Models `handleFormSubmit` (lines 256-271) on the threaded collection:
alert and leave the collection unchanged when the validation test fires,
otherwise run `addExpense`. -/
def handleFormSubmit (expenses : List Expense) (name amount category : String)
    (nowMs : ℚ) (dateStr tsStr : String) : List Expense :=
  if submitRejected name amount then expenses
  else (addExpense expenses name amount category nowMs dateStr tsStr).1

/-- One invocation of `addExpense`: the form field values and the clock reads
at that moment. -/
structure AddCall where
  name : String
  amount : String
  category : String
  nowMs : ℚ
  dateStr : String
  tsStr : String

/-- Runs a sequence of `addExpense` calls against a starting collection. -/
def runAdds (expenses : List Expense) (calls : List AddCall) : List Expense :=
  calls.foldl
    (fun es c => (addExpense es c.name c.amount c.category c.nowMs c.dateStr c.tsStr).1)
    expenses

/-- Stated from the spec's words, for comparison with the code: the order in
which values are first encountered in the input sequence. -/
def firstSeen (l : List String) : List String :=
  l.foldl (fun acc c => if c ∈ acc then acc else acc ++ [c]) []

/-- Sum of the values stored under a key in an association list (with
distinct keys, the value of the key's unique entry). -/
def sumFor (k : String) (l : List (String × ℚ)) : ℚ :=
  ((l.filter (fun p => p.1 == k)).map Prod.snd).sum

/-- A JSON value, the structure `JSON.stringify`/`JSON.parse` write and read
(numbers idealized as rationals, object fields as ordered key-value pairs). -/
inductive Json where
  | str : String → Json
  | num : ℚ → Json
  | arr : List Json → Json
  | obj : List (String × Json) → Json

/-- The JSON object `JSON.stringify` produces for one expense record. -/
def expenseToJson (e : Expense) : Json :=
  Json.obj [("id", Json.num e.id), ("name", Json.str e.name),
    ("amount", Json.num e.amount), ("category", Json.str e.category),
    ("date", Json.str e.date), ("timestamp", Json.str e.timestamp)]

/-- Models `saveExpenses(expenses)` (lines 12-14): the serialized blob is the
JSON array of the records' objects. -/
def saveExpenses (expenses : List Expense) : Json :=
  Json.arr (expenses.map expenseToJson)

/-- Reads one expense record back from its parsed JSON object. -/
def jsonToExpense (j : Json) : Option Expense :=
  match j with
  | Json.obj fields =>
    match fields.lookup "id", fields.lookup "name", fields.lookup "amount",
        fields.lookup "category", fields.lookup "date",
        fields.lookup "timestamp" with
    | some (Json.num i), some (Json.str n), some (Json.num a),
        some (Json.str c), some (Json.str d), some (Json.str t) =>
      some { id := i, name := n, amount := a, category := c, date := d, timestamp := t }
    | _, _, _, _, _, _ => none
  | _ => none

/-- Reads a parsed JSON array back as the list of expense records. -/
def decodeExpenseList (js : List Json) : Option (List Expense) :=
  match js with
  | [] => some []
  | j :: t =>
    match jsonToExpense j, decodeExpenseList t with
    | some e, some es => some (e :: es)
    | _, _ => none

/-- Models `getExpenses()` (lines 6-9): `data ? JSON.parse(data) : []` — an
absent blob yields the empty collection, a stored array is read back record
by record. -/
def loadExpenses (blob : Option Json) : Option (List Expense) :=
  match blob with
  | none => some []
  | some (Json.arr js) => decodeExpenseList js
  | some _ => none

lemma calculateTotal_eq_sum (es : List Expense) :
    calculateTotal es = (es.map Expense.amount).sum := by
  suffices h : ∀ a : ℚ, es.foldl (fun s e => s + e.amount) a = a + (es.map Expense.amount).sum by
    simpa [calculateTotal] using h 0
  induction es with
  | nil => simp
  | cons e t ih => intro a; simp [List.foldl_cons, ih, add_assoc]

/-- C4: with an empty `monthExpenses`, `deriveInsights` returns exactly the
single no-data insight, whatever `todayExpenses` and the current day are (the
early return skips every remaining rule). -/
theorem deriveInsights_empty_month (todayExpenses : List Expense) (currentDay : ℕ) :
    deriveInsights todayExpenses [] currentDay = [noDataInsight] := rfl

/-- C6: `dailyAverage` is `total / dayOfMonth` when `dayOfMonth > 0` and `0`
otherwise; in particular total `300` over day `3` gives `100`, and day `0`
gives `0`. -/
theorem dailyAverage_spec (es : List Expense) (d : ℕ) :
    (0 < d → dailyAverage es d = calculateTotal es / d)
    ∧ dailyAverage es 0 = 0
    ∧ dailyAverage [⟨0, "a", 300, "food", "dt", "ts"⟩] 3 = 100
    ∧ dailyAverage [⟨0, "a", 300, "food", "dt", "ts"⟩] 0 = 0 := by
  refine ⟨fun h => ?_, ?_, ?_, ?_⟩
  · simp [dailyAverage, h]
  · simp [dailyAverage]
  · norm_num [dailyAverage, calculateTotal]
  · simp [dailyAverage]

theorem dailyAverage_spec_witness :
    dailyAverage [] 3 = calculateTotal [] / ((3 : ℕ) : ℚ) :=
  (dailyAverage_spec [] 3).1 (by decide)

/-- C7: the total of the empty collection is `0`, and the total is invariant
under permutation of the expense sequence. -/
theorem calculateTotal_perm_invariant (es es' : List Expense) :
    calculateTotal [] = 0 ∧ (es.Perm es' → calculateTotal es = calculateTotal es') := by
  refine ⟨rfl, fun h => ?_⟩
  rw [calculateTotal_eq_sum, calculateTotal_eq_sum]
  exact (h.map Expense.amount).sum_eq

theorem calculateTotal_perm_invariant_witness :
    calculateTotal [⟨0, "a", 1, "food", "d", "t"⟩, ⟨1, "b", 2, "food", "d", "t"⟩]
      = calculateTotal [⟨1, "b", 2, "food", "d", "t"⟩, ⟨0, "a", 1, "food", "d", "t"⟩] :=
  (calculateTotal_perm_invariant
      [⟨0, "a", 1, "food", "d", "t"⟩, ⟨1, "b", 2, "food", "d", "t"⟩]
      [⟨1, "b", 2, "food", "d", "t"⟩, ⟨0, "a", 1, "food", "d", "t"⟩]).2
    (List.Perm.swap (⟨1, "b", 2, "food", "d", "t"⟩ : Expense) ⟨0, "a", 1, "food", "d", "t"⟩ [])

/-- C8: `deleteExpense` removes exactly the records whose `id` matches: it
leaves the collection unchanged when nothing matches, every surviving record
has a different id, every non-matching record survives, it is idempotent,
and it only ever removes records (sublist). -/
theorem deleteExpense_spec (es : List Expense) (id : ℚ) :
    ((∀ e ∈ es, e.id ≠ id) → deleteExpense es id = es)
    ∧ (∀ e ∈ deleteExpense es id, e.id ≠ id)
    ∧ (∀ e ∈ es, e.id ≠ id → e ∈ deleteExpense es id)
    ∧ deleteExpense (deleteExpense es id) id = deleteExpense es id
    ∧ (deleteExpense es id).Sublist es := by
  refine ⟨fun h => ?_, fun e he => ?_, fun e he hne => ?_, ?_, ?_⟩
  · exact List.filter_eq_self.mpr (fun e he => by simpa using h e he)
  · have := (List.mem_filter.mp he).2
    simpa using this
  · exact List.mem_filter.mpr ⟨he, by simpa using hne⟩
  · simp [deleteExpense, List.filter_filter]
  · exact List.filter_sublist _

theorem deleteExpense_spec_witness :
    deleteExpense [⟨1, "a", 2, "food", "d", "t"⟩] 0 = [⟨1, "a", 2, "food", "d", "t"⟩] :=
  (deleteExpense_spec [⟨1, "a", 2, "food", "d", "t"⟩] 0).1 (by decide)

lemma jsonToExpense_expenseToJson (e : Expense) :
    jsonToExpense (expenseToJson e) = some e := rfl

/-- C9: the persisted JSON structure loads back to the original collection
(same records, same fields, same order), and an absent blob loads as the
empty collection. -/
theorem save_load_roundtrip (es : List Expense) :
    loadExpenses (some (saveExpenses es)) = some es ∧ loadExpenses none = some [] := by
  refine ⟨?_, rfl⟩
  simp only [saveExpenses, loadExpenses]
  induction es with
  | nil => rfl
  | cons e t ih => simp [decodeExpenseList, jsonToExpense_expenseToJson, ih]

/-- C1 fails on the code: the form check tests the untrimmed name, so a
whitespace-only name passes validation and a record with an empty trimmed
name is appended; likewise `parseFloat` of a non-numeric amount is `NaN`,
which is not `<= 0`, so the record is appended as well. -/
theorem submit_validation_counterexample :
    jsTrim " " = ""
    ∧ handleFormSubmit [] " " "10" "food" 1 "d" "t"
      = [{ id := 1, name := "", amount := 10, category := "food", date := "d",
           timestamp := "t" }]
    ∧ parseFloat "abc" = JSNum.nan
    ∧ (handleFormSubmit [] "x" "abc" "food" 2 "d" "t").length = 1 :=
  ⟨by decide, by decide, by decide, by decide⟩

/-- C1 as amended: submission is rejected (collection unchanged) exactly when
the raw name string is empty, the raw amount string is empty, or
`parseFloat(amount) <= 0` holds in JS; otherwise exactly the one new record
is appended. For an amount that parses to a finite value `q`, acceptance is
equivalent to the name and amount strings being non-empty and `q > 0`. -/
theorem handleFormSubmit_validation (es : List Expense) (name amount category : String)
    (nowMs : ℚ) (dateStr tsStr : String) :
    (submitRejected name amount = true ↔
      name = "" ∨ amount = "" ∨ jsLeZero (parseFloat amount) = true)
    ∧ (submitRejected name amount = true →
      handleFormSubmit es name amount category nowMs dateStr tsStr = es)
    ∧ (submitRejected name amount = false →
      handleFormSubmit es name amount category nowMs dateStr tsStr
        = es ++ [(addExpense es name amount category nowMs dateStr tsStr).2])
    ∧ (∀ q : ℚ, parseFloat amount = JSNum.fin q →
      (submitRejected name amount = false ↔ name ≠ "" ∧ amount ≠ "" ∧ 0 < q)) := by
  refine ⟨?_, fun h => ?_, fun h => ?_, fun q hq => ?_⟩
  · simp [submitRejected, or_assoc]
  · simp [handleFormSubmit, h]
  · simp [handleFormSubmit, h, addExpense]
  · simp [submitRejected, hq, jsLeZero, not_le, and_assoc]

theorem handleFormSubmit_validation_witness :
    handleFormSubmit [] "a" "2" "food" 1 "d" "t"
      = [] ++ [(addExpense [] "a" "2" "food" 1 "d" "t").2] :=
  (handleFormSubmit_validation [] "a" "2" "food" 1 "d" "t").2.2.1 (by decide)

lemma runAdds_eq_append (calls : List AddCall) (es : List Expense) :
    runAdds es calls = es ++ calls.map
      (fun c => (addExpense [] c.name c.amount c.category c.nowMs c.dateStr c.tsStr).2) := by
  induction calls generalizing es with
  | nil => simp [runAdds]
  | cons c cs ih =>
    show runAdds ((addExpense es c.name c.amount c.category c.nowMs c.dateStr c.tsStr).1) cs = _
    rw [ih]
    simp [addExpense]

/-- C2 fails on the code: `id` is `Date.now()`, so two adds that observe the
same clock millisecond produce the same id — here both records get id `5`. -/
theorem duplicate_id_counterexample :
    (runAdds [] [⟨"a", "1", "food", 5, "d", "t"⟩, ⟨"b", "2", "food", 5, "d", "t"⟩]).map
        Expense.id = [5, 5]
    ∧ ¬ ((runAdds [] [⟨"a", "1", "food", 5, "d", "t"⟩,
        ⟨"b", "2", "food", 5, "d", "t"⟩]).map Expense.id).Nodup :=
  ⟨by decide, by decide⟩

/-- C2 as amended: a sequence of `add` calls yields exactly the added records
in insertion order; each record's id is the `Date.now()` value observed by
its call, so the ids are pairwise distinct whenever those clock values are. -/
theorem runAdds_spec (calls : List AddCall) :
    runAdds [] calls = calls.map
      (fun c => (addExpense [] c.name c.amount c.category c.nowMs c.dateStr c.tsStr).2)
    ∧ (runAdds [] calls).map Expense.id = calls.map AddCall.nowMs
    ∧ ((calls.map AddCall.nowMs).Nodup → ((runAdds [] calls).map Expense.id).Nodup) := by
  have h1 := runAdds_eq_append calls []
  simp only [List.nil_append] at h1
  have h2 : (runAdds [] calls).map Expense.id = calls.map AddCall.nowMs := by
    rw [h1, List.map_map]; rfl
  exact ⟨h1, h2, fun h => h2 ▸ h⟩

theorem runAdds_spec_witness :
    ((runAdds [] [⟨"a", "1", "food", 0, "d", "t"⟩, ⟨"b", "2", "food", 1, "d", "t"⟩]).map
      Expense.id).Nodup :=
  (runAdds_spec [⟨"a", "1", "food", 0, "d", "t"⟩, ⟨"b", "2", "food", 1, "d", "t"⟩]).2.2
    (by decide)

lemma upsert_keys (acc : List (String × ℚ)) (k : String) (v : ℚ) :
    (upsert acc k v).map Prod.fst =
      if k ∈ acc.map Prod.fst then acc.map Prod.fst else acc.map Prod.fst ++ [k] := by
  induction acc with
  | nil => simp [upsert]
  | cons a t ih =>
    obtain ⟨a1, a2⟩ := a
    by_cases h : a1 = k
    · subst h
      simp [upsert]
    · simp only [upsert, if_neg h, List.map_cons, ih]
      by_cases h2 : k ∈ t.map Prod.fst <;>
        simp [h2, List.mem_cons, Ne.symm h]

lemma upsert_keys_nodup (acc : List (String × ℚ)) (k : String) (v : ℚ)
    (h : (acc.map Prod.fst).Nodup) : ((upsert acc k v).map Prod.fst).Nodup := by
  rw [upsert_keys]
  by_cases h2 : k ∈ acc.map Prod.fst
  · simpa [h2] using h
  · simp [h2, List.nodup_append, h]

lemma sumFor_cons (k' a1 : String) (a2 : ℚ) (t : List (String × ℚ)) :
    sumFor k' ((a1, a2) :: t) = (if a1 = k' then a2 else 0) + sumFor k' t := by
  by_cases h : a1 = k' <;> simp [sumFor, List.filter_cons, h]

lemma upsert_sumFor (acc : List (String × ℚ)) (k : String) (v : ℚ) (k' : String) :
    sumFor k' (upsert acc k v) = sumFor k' acc + if k = k' then v else 0 := by
  induction acc with
  | nil => by_cases h : k = k' <;> simp [upsert, sumFor, h]
  | cons a t ih =>
    obtain ⟨a1, a2⟩ := a
    by_cases h : a1 = k
    · subst h
      have hup : upsert ((a1, a2) :: t) a1 v = (a1, a2 + v) :: t := by
        simp [upsert]
      rw [hup, sumFor_cons, sumFor_cons]
      by_cases h2 : a1 = k'
      · simp [h2]
        ring
      · simp [h2]
    · simp only [upsert, if_neg h]
      rw [sumFor_cons, sumFor_cons, ih]
      ring

lemma entry_eq_sumFor (p : String × ℚ) :
    ∀ l : List (String × ℚ), (l.map Prod.fst).Nodup → p ∈ l → p.2 = sumFor p.1 l := by
  intro l
  induction l with
  | nil => intro _ hp; cases hp
  | cons a t ih =>
    intro h hp
    obtain ⟨a1, a2⟩ := a
    simp only [List.map_cons, List.nodup_cons] at h
    rcases List.mem_cons.mp hp with h1 | h1
    · subst h1
      have hnil : t.filter (fun q => q.1 == a1) = [] :=
        List.filter_eq_nil_iff.mpr (fun q hq => by
          simp only [beq_iff_eq]
          exact fun hq1 => h.1 (hq1 ▸ List.mem_map_of_mem Prod.fst hq))
      simp [sumFor, List.filter_cons, hnil]
    · have h2 : a1 ≠ p.1 := fun he => h.1 (he ▸ List.mem_map_of_mem Prod.fst h1)
      have := ih h.2 h1
      simpa [sumFor, List.filter_cons, h2] using this

lemma categoryTotals_append (es : List Expense) (e : Expense) :
    categoryTotals (es ++ [e]) = upsert (categoryTotals es) e.category e.amount := by
  simp [categoryTotals, List.foldl_append]

lemma firstSeen_append (l : List String) (c : String) :
    firstSeen (l ++ [c]) = if c ∈ firstSeen l then firstSeen l else firstSeen l ++ [c] := by
  simp [firstSeen, List.foldl_append]

lemma calculateTotal_append (l1 l2 : List Expense) :
    calculateTotal (l1 ++ l2) = calculateTotal l1 + calculateTotal l2 := by
  simp [calculateTotal_eq_sum]

lemma categoryTotals_inv (es : List Expense) :
    ((categoryTotals es).map Prod.fst).Nodup
    ∧ (categoryTotals es).map Prod.fst = firstSeen (es.map Expense.category)
    ∧ ∀ k : String, sumFor k (categoryTotals es) =
        calculateTotal (es.filter (fun e => e.category == k)) := by
  induction es using List.reverseRecOn with
  | nil => simp [categoryTotals, firstSeen, sumFor, calculateTotal]
  | append_singleton es e ih =>
    obtain ⟨ih1, ih2, ih3⟩ := ih
    refine ⟨?_, ?_, ?_⟩
    · rw [categoryTotals_append]
      exact upsert_keys_nodup _ _ _ ih1
    · rw [categoryTotals_append, upsert_keys, ih2, List.map_append, List.map_singleton,
        firstSeen_append]
    · intro k
      rw [categoryTotals_append, upsert_sumFor, ih3, List.filter_append,
        calculateTotal_append]
      by_cases h : e.category = k
      · simp [h, List.filter_cons, calculateTotal]
      · simp [h, List.filter_cons, calculateTotal]

lemma mergeSort_filter_ties {α : Type} (le : α → α → Bool)
    (htrans : ∀ a b c : α, le a b = true → le b c = true → le a c = true)
    (htot : ∀ a b : α, (le a b || le b a) = true)
    (l : List α) (q : α → Bool)
    (hq : ∀ a b : α, q a = true → q b = true → le a b = true) :
    (l.mergeSort le).filter q = l.filter q := by
  have hpair : (l.filter q).Pairwise (fun a b => le a b = true) :=
    List.pairwise_of_forall_mem_list (fun a ha b hb =>
      hq a b (List.of_mem_filter ha) (List.of_mem_filter hb))
  have hsub : (l.filter q).Sublist (l.mergeSort le) :=
    List.sublist_mergeSort htrans htot hpair (List.filter_sublist l)
  have hlen : ((l.mergeSort le).filter q).length = (l.filter q).length :=
    ((List.mergeSort_perm l le).filter q).length_eq
  have hsub2 : (l.filter q).Sublist ((l.mergeSort le).filter q) := by
    have h4 : (l.filter q).filter q = l.filter q :=
      List.filter_eq_self.mpr (fun a ha => List.of_mem_filter ha)
    simpa [h4] using hsub.filter q
  exact (hsub2.eq_of_length hlen.symm).symm

/-- C5: `categoryBreakdown` pairs each category with the sum of its amounts,
one entry per category in the input, sorted descending by total, and entries
with equal totals keep the order of the grouping pass (first-encounter
order); the empty collection gives the empty breakdown and the spec's
three-record example gives `[(food, 125), (travel, 50)]`. -/
theorem categoryBreakdown_spec (es : List Expense) :
    categoryBreakdown [] = []
    ∧ categoryBreakdown
        [⟨1, "a", 100, "food", "d", "t"⟩, ⟨2, "b", 50, "travel", "d", "t"⟩,
         ⟨3, "c", 25, "food", "d", "t"⟩]
      = [("food", 125), ("travel", 50)]
    ∧ (categoryBreakdown es).Pairwise (fun a b => b.2 ≤ a.2)
    ∧ (∀ p ∈ categoryBreakdown es,
        p.2 = calculateTotal (es.filter (fun e => e.category == p.1)))
    ∧ ((categoryBreakdown es).map Prod.fst).Perm (firstSeen (es.map Expense.category))
    ∧ ∀ t : ℚ, (categoryBreakdown es).filter (fun p => p.2 == t)
        = (categoryTotals es).filter (fun p => p.2 == t) := by
  have htrans : ∀ a b c : String × ℚ, (fun a b : String × ℚ => decide (b.2 ≤ a.2)) a b = true →
      (fun a b : String × ℚ => decide (b.2 ≤ a.2)) b c = true →
      (fun a b : String × ℚ => decide (b.2 ≤ a.2)) a c = true := by
    intro a b c h1 h2
    simp only [decide_eq_true_eq] at *
    exact le_trans h2 h1
  have htot : ∀ a b : String × ℚ, ((fun a b : String × ℚ => decide (b.2 ≤ a.2)) a b ||
      (fun a b : String × ℚ => decide (b.2 ≤ a.2)) b a) = true := by
    intro a b
    rcases le_total a.2 b.2 with h | h <;> simp [h]
  refine ⟨?_, ?_, ?_, ?_, ?_, ?_⟩
  · simp [categoryBreakdown, categoryTotals]
  · norm_num [categoryBreakdown, categoryTotals, upsert, List.mergeSort,
      List.splitInTwo, List.splitAt, List.splitAt.go, List.merge]
  · exact (List.sorted_mergeSort htrans htot _).imp (fun h => by simpa using h)
  · intro p hp
    rw [categoryBreakdown, List.mem_mergeSort] at hp
    rw [entry_eq_sumFor p _ (categoryTotals_inv es).1 hp]
    exact (categoryTotals_inv es).2.2 p.1
  · exact (categoryTotals_inv es).2.1 ▸ ((List.mergeSort_perm _ _).map Prod.fst)
  · intro t
    exact mergeSort_filter_ties _ htrans htot _ _ (fun a b ha hb => by
      simp only [beq_iff_eq] at ha hb
      simp [ha, hb])

theorem categoryBreakdown_spec_witness :
    (("food", (7 : ℚ)) ∈ categoryBreakdown [⟨0, "n", 7, "food", "d", "t"⟩])
    ∧ ("food", (7 : ℚ)).2 = calculateTotal
        (([⟨0, "n", 7, "food", "d", "t"⟩] : List Expense).filter
          (fun e => e.category == ("food", (7 : ℚ)).1)) := by
  have hm : ("food", (7 : ℚ)) ∈ categoryBreakdown [⟨0, "n", 7, "food", "d", "t"⟩] := by
    simp [categoryBreakdown, categoryTotals, upsert, List.mergeSort_singleton]
  exact ⟨hm, (categoryBreakdown_spec [⟨0, "n", 7, "food", "d", "t"⟩]).2.2.2.1 _ hm⟩

lemma deriveInsights_decomp (todayExpenses monthExpenses : List Expense) (currentDay : ℕ)
    (h : monthExpenses ≠ []) :
    deriveInsights todayExpenses monthExpenses currentDay =
      (if rule2 (calculateTotal todayExpenses) (dailyAverage monthExpenses currentDay)
          ++ rule3 monthExpenses
          ++ rule4 monthExpenses (dailyAverage monthExpenses currentDay)
          ++ rule5 (calculateTotal todayExpenses) = [] then [fallbackInsight]
      else rule2 (calculateTotal todayExpenses) (dailyAverage monthExpenses currentDay)
          ++ rule3 monthExpenses
          ++ rule4 monthExpenses (dailyAverage monthExpenses currentDay)
          ++ rule5 (calculateTotal todayExpenses)) := by
  have hlen : ¬(monthExpenses.length = 0) := by
    simpa [List.length_eq_zero] using h
  simp only [deriveInsights, rule2, rule3, rule4, rule5, hlen, if_false]
  by_cases c2 : calculateTotal todayExpenses > dailyAverage monthExpenses currentDay ∧
      dailyAverage monthExpenses currentDay > 0 <;>
    by_cases c3 : (categoryBreakdown monthExpenses).length > 0 <;>
    by_cases c4 : ((expensesByDate monthExpenses).filter
        (fun p => decide (p.2 > dailyAverage monthExpenses currentDay * 1.5))).length ≥ 3 <;>
    by_cases c5 : calculateTotal todayExpenses > 500 <;>
    simp [c2, c3, c4, c5]

/-- C3: for a non-empty month, `deriveInsights` is the concatenation of the
rule 2-5 contributions in that fixed order, each contributing at most one
string, with the fallback emitted exactly when rules 2-5 all contributed
nothing. -/
theorem deriveInsights_rule_decomposition (todayExpenses monthExpenses : List Expense)
    (currentDay : ℕ) (h : monthExpenses ≠ []) :
    (deriveInsights todayExpenses monthExpenses currentDay =
      (if rule2 (calculateTotal todayExpenses) (dailyAverage monthExpenses currentDay)
          ++ rule3 monthExpenses
          ++ rule4 monthExpenses (dailyAverage monthExpenses currentDay)
          ++ rule5 (calculateTotal todayExpenses) = [] then [fallbackInsight]
      else rule2 (calculateTotal todayExpenses) (dailyAverage monthExpenses currentDay)
          ++ rule3 monthExpenses
          ++ rule4 monthExpenses (dailyAverage monthExpenses currentDay)
          ++ rule5 (calculateTotal todayExpenses)))
    ∧ (rule2 (calculateTotal todayExpenses) (dailyAverage monthExpenses currentDay)).length ≤ 1
    ∧ (rule3 monthExpenses).length ≤ 1
    ∧ (rule4 monthExpenses (dailyAverage monthExpenses currentDay)).length ≤ 1
    ∧ (rule5 (calculateTotal todayExpenses)).length ≤ 1 := by
  refine ⟨deriveInsights_decomp _ _ _ h, ?_, ?_, ?_, ?_⟩
  · simp only [rule2]; split <;> simp
  · simp only [rule3]; split <;> simp
  · simp only [rule4]; split <;> simp
  · simp only [rule5]; split <;> simp

theorem deriveInsights_rule_decomposition_witness :
    deriveInsights [] [⟨0, "a", 1, "food", "d", "t"⟩] 1 =
      (if rule2 (calculateTotal []) (dailyAverage [⟨0, "a", 1, "food", "d", "t"⟩] 1)
          ++ rule3 [⟨0, "a", 1, "food", "d", "t"⟩]
          ++ rule4 [⟨0, "a", 1, "food", "d", "t"⟩] (dailyAverage [⟨0, "a", 1, "food", "d", "t"⟩] 1)
          ++ rule5 (calculateTotal []) = [] then [fallbackInsight]
      else rule2 (calculateTotal []) (dailyAverage [⟨0, "a", 1, "food", "d", "t"⟩] 1)
          ++ rule3 [⟨0, "a", 1, "food", "d", "t"⟩]
          ++ rule4 [⟨0, "a", 1, "food", "d", "t"⟩] (dailyAverage [⟨0, "a", 1, "food", "d", "t"⟩] 1)
          ++ rule5 (calculateTotal [])) :=
  (deriveInsights_rule_decomposition [] [⟨0, "a", 1, "food", "d", "t"⟩] 1
    (List.cons_ne_nil _ _)).1

lemma categoryTotals_cons_ne_nil (e : Expense) (es : List Expense) :
    categoryTotals (e :: es) ≠ [] := by
  suffices h : ∀ (l : List Expense) (acc : List (String × ℚ)), acc ≠ [] →
      l.foldl (fun a x => upsert a x.category x.amount) acc ≠ [] by
    exact h es (upsert [] e.category e.amount) (by simp [upsert])
  intro l
  induction l with
  | nil => intro acc hacc; simpa using hacc
  | cons x t ih =>
    intro acc hacc
    simp only [List.foldl_cons]
    apply ih
    cases acc with
    | nil => simp [upsert]
    | cons a t2 =>
      obtain ⟨a1, a2⟩ := a
      by_cases hx : a1 = x.category <;> simp [upsert, hx]

lemma rule3_cons (e : Expense) (es : List Expense) :
    rule3 (e :: es) = [(categoryBreakdown (e :: es)).headI.1 ++ highestCategorySuffix] := by
  have hct : categoryTotals (e :: es) ≠ [] := categoryTotals_cons_ne_nil e es
  have hpos : (categoryBreakdown (e :: es)).length > 0 := by
    rw [categoryBreakdown, List.length_mergeSort]
    exact List.length_pos.mpr hct
  simp only [rule3]
  rw [if_pos hpos]

lemma highestCategoryMsg_ne_fallback (c : String) :
    c ++ highestCategorySuffix ≠ fallbackInsight := by
  intro hEq
  have hd : c.data ++ highestCategorySuffix.data = fallbackInsight.data := by
    have h1 := congrArg String.data hEq
    simpa [String.data_append] using h1
  have hsuffix : highestCategorySuffix.data <:+ fallbackInsight.data := ⟨c.data, hd⟩
  exact absurd hsuffix (by decide)

/-- C10: the fallback insight can never be rendered: an empty month produces
only the no-data insight, and a non-empty month always makes rule 3
contribute its one highest-category insight, so the rule 2-5 contributions
are never all empty and the fallback branch is dead. -/
theorem fallback_insight_never_emitted (todayExpenses monthExpenses : List Expense)
    (currentDay : ℕ) (e : Expense) (es : List Expense) :
    (deriveInsights todayExpenses monthExpenses currentDay).filter
        (fun s => s == fallbackInsight) = []
    ∧ (rule3 (e :: es)).length = 1 := by
  have hb3 : ∀ c : String, ((c ++ highestCategorySuffix) == fallbackInsight) = false :=
    fun c => beq_eq_false_iff_ne.mpr (highestCategoryMsg_ne_fallback c)
  refine ⟨?_, by rw [rule3_cons]; rfl⟩
  cases monthExpenses with
  | nil =>
    have hrfl : deriveInsights todayExpenses [] currentDay = [noDataInsight] := rfl
    rw [hrfl]
    decide
  | cons m ms =>
    rw [deriveInsights_decomp _ _ _ (List.cons_ne_nil m ms), rule3_cons]
    have hb2 : (aboveAverageInsight == fallbackInsight) = false := by decide
    have hb4 : (multiDayInsight == fallbackInsight) = false := by decide
    have hb5 : (thresholdInsight == fallbackInsight) = false := by decide
    have hne : rule2 (calculateTotal todayExpenses) (dailyAverage (m :: ms) currentDay)
        ++ [(categoryBreakdown (m :: ms)).headI.1 ++ highestCategorySuffix]
        ++ rule4 (m :: ms) (dailyAverage (m :: ms) currentDay)
        ++ rule5 (calculateTotal todayExpenses) ≠ [] := by
      simp
    rw [if_neg hne]
    simp [List.filter_append, rule2, rule4, rule5,
      apply_ite (List.filter (fun s => s == fallbackInsight)), hb2, hb3, hb4, hb5]
